import Mathlib

/-
Verification of `docs/.mkdocs-gen/generate_api_nav.py` (repository wagnerks/ecss).

The script builds a navigation sidebar (`ecss/SUMMARY.md`) from a pre-built
"annotated" index page.  We embed it shallowly: text is `List Char`, the
collection `mkdocs_gen_files.files` is a `List FileDescriptor`, and the
filesystem is a function from paths to optional contents.  A read failure is
an uncaught Python exception, modelled by `Except.error`.
-/

/-- Descriptor of one file known to the documentation build
(mkdocs `File`): `src_uri` is the virtual path, `abs_src_path` the
absolute filesystem location. -/
structure FileDescriptor where
  src_uri : List Char
  abs_src_path : List Char
deriving Repr, DecidableEq

/-- Characters stripped by Python `str.strip()` with no argument: exactly
the code points for which `str.isspace()` holds (CPython's whitespace
table): U+0009-U+000D, U+001C-U+001F, U+0020, U+0085, U+00A0, U+1680,
U+2000-U+200A, U+2028, U+2029, U+202F, U+205F, U+3000. -/
def pyIsSpace (c : Char) : Bool :=
  let n := c.toNat
  (0x09 ≤ n ∧ n ≤ 0x0d) || (0x1c ≤ n ∧ n ≤ 0x20) || n = 0x85 || n = 0xa0 ||
  n = 0x1680 || (0x2000 ≤ n ∧ n ≤ 0x200a) || n = 0x2028 || n = 0x2029 ||
  n = 0x202f || n = 0x205f || n = 0x3000

/-- Python `line.strip()`: drop whitespace from both ends. -/
def pyStrip (cs : List Char) : List Char :=
  ((cs.dropWhile pyIsSpace).reverse.dropWhile pyIsSpace).reverse

/-- Python `s.startswith("*")`. -/
def startsWithStar : List Char → Bool
  | '*' :: _ => true
  | _ => false

/-- Python `s.lower()`, restricted to its ASCII behaviour
(the fixed literal compared against is pure ASCII). -/
def pyLower (cs : List Char) : List Char :=
  cs.map Char.toLower

/-- Python `s.replace(pat, rep)` (left-to-right, non-overlapping),
fuelled so that recursion is structural; `fuel = cs.length` always
suffices because each step consumes at least one character. -/
def pyReplaceFuel (pat rep : List Char) : Nat → List Char → List Char
  | _, [] => []
  | 0, cs => cs
  | n + 1, c :: cs =>
    if pat ≠ [] ∧ pat.isPrefixOf (c :: cs) = true then
      rep ++ pyReplaceFuel pat rep n ((c :: cs).drop pat.length)
    else
      c :: pyReplaceFuel pat rep n cs

/-- Python `s.replace(pat, rep)` for a non-empty `pat`. -/
def pyReplace (pat rep cs : List Char) : List Char :=
  pyReplaceFuel pat rep cs.length cs

/-- Lines 29-30 of the script:
`name.replace("**", "").replace(" ", "")` then `name.replace("::", ".")`. -/
def normalizeName (name : List Char) : List Char :=
  pyReplace "::".data ".".data (pyReplace " ".data [] (pyReplace "**".data [] name))

/-- Attempt of the regex `\[([^\]]+)\]\(([^)]+)\)` with the leading `[`
already consumed: a maximal run of non-`]` characters (non-empty), then
`](`, then a maximal run of non-`)` characters (non-empty), then `)`.
Greediness is exact here because each character class excludes its own
closing delimiter. -/
def tryMatchAt (cs : List Char) : Option (List Char × List Char) :=
  let name := cs.takeWhile (fun c => c ≠ ']')
  match cs.dropWhile (fun c => c ≠ ']') with
  | ']' :: '(' :: rest2 =>
    let link := rest2.takeWhile (fun c => c ≠ ')')
    match rest2.dropWhile (fun c => c ≠ ')') with
    | ')' :: _ => if name = [] ∨ link = [] then none else some (name, link)
    | _ => none
  | _ => none

/-- Python `re.search(r"\[([^\]]+)\]\(([^)]+)\)", line)`: leftmost match,
returning the two capture groups. -/
def reSearch : List Char → Option (List Char × List Char)
  | [] => none
  | c :: rest =>
    if c = '[' then
      match tryMatchAt rest with
      | some r => some r
      | none => reSearch rest
    else
      reSearch rest

/-- One produced output entry (spec data model `NavEntry`). -/
structure NavEntry where
  indentLevel : Nat
  displayName : List Char
  link : List Char
deriving Repr, DecidableEq

/-- Lines 19-30 of the script, the body of the per-line loop:
skip lines whose stripped form does not start with `*`;
`indent = (len(line) - len(line.lstrip(" "))) // 4`;
skip lines the regex does not match; normalize the name. -/
def parseLine (line : List Char) : Option NavEntry :=
  if startsWithStar (pyStrip line) = false then none
  else
    let indent := (line.length - (line.dropWhile (fun c => c = ' ')).length) / 4
    match reSearch line with
    | none => none
    | some (name, link) => some ⟨indent, normalizeName name, link⟩

/-- Line 32 of the script: `"    " * indent + f"* [\x7bname\x7d](\x7blink\x7d)"`. -/
def renderEntry (e : NavEntry) : List Char :=
  (List.replicate e.indentLevel "    ".data).flatten
    ++ "* [".data ++ e.displayName ++ "](".data ++ e.link ++ ")".data

/-- Split on the newline character (Python line boundaries are `\n` in
universal-newlines text mode after translation). -/
def splitOnNl : List Char → List (List Char)
  | [] => [[]]
  | '\n' :: rest => [] :: splitOnNl rest
  | c :: rest =>
    match splitOnNl rest with
    | [] => [[c]]
    | l :: ls => (c :: l) :: ls

/-- Reattach the `\n` terminator to every line except the last, dropping a
trailing empty fragment: exactly the lines `for line in afile` yields. -/
def addNewlines : List (List Char) → List (List Char)
  | [] => []
  | [l] => if l = [] then [] else [l]
  | l :: l2 :: rest => (l ++ ['\n']) :: addNewlines (l2 :: rest)

/-- The sequence of lines Python iteration over an open text file yields. -/
def pyFileLines (content : List Char) : List (List Char) :=
  addNewlines (splitOnNl content)

/-- Python `"\n".join(nav)`. -/
def joinNl : List (List Char) → List Char
  | [] => []
  | [l] => l
  | l :: l2 :: rest => l ++ '\n' :: joinNl (l2 :: rest)

/-- Lexicographic `≤` on code points, Python string comparison. -/
def strLe : List Char → List Char → Bool
  | [], _ => true
  | _ :: _, [] => false
  | a :: as, b :: bs =>
    if a < b then true
    else if b < a then false
    else strLe as bs

/-- Stable insertion into a sorted list, keyed on `src_uri`. -/
def insertSorted (f : FileDescriptor) : List FileDescriptor → List FileDescriptor
  | [] => [f]
  | g :: gs =>
    if strLe f.src_uri g.src_uri then f :: g :: gs
    else g :: insertSorted f gs

/-- Line 7 of the script, `sorted(mkdocs_gen_files.files, key=lambda f: str(f))`:
a stable sort of the descriptor collection, modelled as insertion sort keyed
on the descriptor's source path. -/
def sortFiles (files : List FileDescriptor) : List FileDescriptor :=
  files.foldr insertSorted []

/-- The fixed header line, `nav`'s initial element (line 5). -/
def headerLine : List Char := "* [API Reference](annotated.md)".data

/-- The fixed literal compared against lowered source paths (line 11). -/
def annotatedLit : List Char := "ecss/annotated.md".data

/-- The fixed output path (line 34). -/
def summaryPath : List Char := "ecss/SUMMARY.md".data

/-- The diagnostic printed after writing (line 37). -/
def confirmMsg : List Char := ">>> Generated tree SUMMARY.md".data

/-- Lines 8-13 of the script: scan the sequence, keep the first descriptor
whose lowered `src_uri` equals the fixed literal, `None` otherwise. -/
def locateAnnotatedFile (files : List FileDescriptor) : Option FileDescriptor :=
  files.find? (fun f => pyLower f.src_uri == annotatedLit)

/-- Everything the script externally produces on success: the artifact
written to `ecss/SUMMARY.md` and the diagnostic line. -/
structure BuildOutput where
  path : List Char
  summary : List Char
  message : List Char
deriving Repr, DecidableEq

/-- The whole script (lines 5-37).  `fs` maps an absolute source path to
its content, `none` meaning `open` raises; the exception is not caught, so
the run produces no artifact and no diagnostic (`Except.error`). -/
def build (files : List FileDescriptor) (fs : List Char → Option (List Char)) :
    Except Unit BuildOutput :=
  match locateAnnotatedFile (sortFiles files) with
  | none => .ok ⟨summaryPath, joinNl [headerLine], confirmMsg⟩
  | some f =>
    match fs f.abs_src_path with
    | none => .error ()
    | some content =>
      let nav := (pyFileLines content).foldl
        (fun nav line =>
          match parseLine line with
          | some e => nav ++ [renderEntry e]
          | none => nav)
        [headerLine]
      .ok ⟨summaryPath, joinNl nav, confirmMsg⟩

/-- The rendered entries the annotated content contributes, in file order. -/
def renderedEntries (content : List Char) : List (List Char) :=
  (pyFileLines content).filterMap (fun line => (parseLine line).map renderEntry)

/-- The entry lines a given run contributes after the header: none when no
descriptor matches, otherwise those parsed from the content actually read. -/
def navEntriesSource (files : List FileDescriptor)
    (fs : List Char → Option (List Char)) : List (List Char) :=
  match locateAnnotatedFile (sortFiles files) with
  | none => []
  | some f => renderedEntries ((fs f.abs_src_path).getD [])

/-- Spec-side reading of "contains a substring matching `[name](link)`"
(name non-empty excluding `]`, link non-empty excluding `)`). -/
def HasLinkPattern (cs : List Char) : Prop :=
  ∃ pre n l post,
    cs = pre ++ '[' :: (n ++ ']' :: '(' :: (l ++ ')' :: post)) ∧
    n ≠ [] ∧ ']' ∉ n ∧ l ≠ [] ∧ ')' ∉ l

/-- Deciding equality of build results, so that concrete runs of the whole
script can be checked by evaluation. -/
instance : DecidableEq (Except Unit BuildOutput) := fun a b =>
  match a, b with
  | .ok x, .ok y => if h : x = y then isTrue (by rw [h]) else isFalse (by simp [h])
  | .error _, .error _ => isTrue (by rfl)
  | .ok _, .error _ => isFalse (by simp)
  | .error _, .ok _ => isFalse (by simp)

/-- Count of leading space characters of a raw line (the claims' reading of
`len(line) - len(line.lstrip(" "))`). -/
def leadingSpaceCount (line : List Char) : Nat :=
  (line.takeWhile (fun c => c = ' ')).length

lemma length_sub_dropWhile (p : Char → Bool) (l : List Char) :
    l.length - (l.dropWhile p).length = (l.takeWhile p).length := by
  have h := congrArg List.length (List.takeWhile_append_dropWhile p l)
  simp only [List.length_append] at h
  omega

lemma foldl_parse_eq_filterMap (l : List (List Char)) (init : List (List Char)) :
    l.foldl
      (fun nav line =>
        match parseLine line with
        | some e => nav ++ [renderEntry e]
        | none => nav)
      init
    = init ++ l.filterMap (fun line => (parseLine line).map renderEntry) := by
  induction l generalizing init with
  | nil => simp
  | cons x xs ih =>
    simp only [List.foldl_cons, List.filterMap_cons]
    cases h : parseLine x with
    | none => simp [h, ih]
    | some e => simp [h, ih]

lemma mem_insertSorted (x f : FileDescriptor) :
    ∀ l, x ∈ insertSorted f l ↔ x = f ∨ x ∈ l
  | [] => by simp [insertSorted]
  | g :: gs => by
    simp only [insertSorted]
    split
    · simp [List.mem_cons]
    · simp only [List.mem_cons, mem_insertSorted x f gs]
      tauto

lemma mem_sortFiles (x : FileDescriptor) :
    ∀ l, x ∈ sortFiles l ↔ x ∈ l
  | [] => by simp [sortFiles]
  | f :: l => by
    have h : sortFiles (f :: l) = insertSorted f (sortFiles l) := rfl
    rw [h, mem_insertSorted]
    simp only [List.mem_cons, mem_sortFiles x l]

lemma takeWhile_dropWhile_append (p : Char → Bool) :
    ∀ (n : List Char) (x : Char) (rest : List Char),
      (∀ a ∈ n, p a = true) → p x = false →
      (n ++ x :: rest).takeWhile p = n ∧ (n ++ x :: rest).dropWhile p = x :: rest
  | [], x, rest, _, hx => by
    simp [List.takeWhile_cons, List.dropWhile_cons, hx]
  | a :: n, x, rest, hall, hx => by
    have ha : p a = true := hall a (by simp)
    have ih := takeWhile_dropWhile_append p n x rest (fun b hb => hall b (by simp [hb])) hx
    simp [List.takeWhile_cons, List.dropWhile_cons, ha, ih.1, ih.2]

lemma tryMatchAt_complete (n l post : List Char)
    (hn : n ≠ []) (hnm : ']' ∉ n) (hl : l ≠ []) (hlm : ')' ∉ l) :
    tryMatchAt (n ++ ']' :: '(' :: (l ++ ')' :: post)) = some (n, l) := by
  have h1 := takeWhile_dropWhile_append (fun c => decide (c ≠ ']')) n ']'
    ('(' :: (l ++ ')' :: post))
    (fun a ha => by
      simp only [decide_eq_true_eq]
      exact fun hcontra => hnm (hcontra ▸ ha))
    (by simp)
  have h2 := takeWhile_dropWhile_append (fun c => decide (c ≠ ')')) l ')' post
    (fun a ha => by
      simp only [decide_eq_true_eq]
      exact fun hcontra => hlm (hcontra ▸ ha))
    (by simp)
  simp only [tryMatchAt, h1.1, h1.2, h2.1, h2.2]
  simp [hn, hl]

lemma tryMatchAt_sound (cs n l : List Char) (h : tryMatchAt cs = some (n, l)) :
    ∃ post, cs = n ++ ']' :: '(' :: (l ++ ')' :: post) ∧
      n ≠ [] ∧ ']' ∉ n ∧ l ≠ [] ∧ ')' ∉ l := by
  simp only [tryMatchAt] at h
  split at h
  case _ rest2 heq =>
    split at h
    case _ tail heq2 =>
      split at h
      case _ hguard => exact absurd h (by simp)
      case _ hguard =>
        rw [Option.some.injEq, Prod.mk.injEq] at h
        obtain ⟨hn, hl⟩ := h
        push_neg at hguard
        refine ⟨tail, ?_, ?_, ?_, ?_, ?_⟩
        · have e1 := List.takeWhile_append_dropWhile (fun c => decide (c ≠ ']')) cs
          have e2 := List.takeWhile_append_dropWhile (fun c => decide (c ≠ ')')) rest2
          rw [heq] at e1
          rw [heq2] at e2
          rw [← e1, hn, ← e2, hl]
        · rw [← hn]; exact hguard.1
        · rw [← hn]
          intro hmem
          have := List.mem_takeWhile_imp hmem
          simp at this
        · rw [← hl]; exact hguard.2
        · rw [← hl]
          intro hmem
          have := List.mem_takeWhile_imp hmem
          simp at this
    case _ => exact absurd h (by simp)
  case _ => exact absurd h (by simp)

lemma reSearch_sound : ∀ (cs n l : List Char), reSearch cs = some (n, l) →
    ∃ pre post, cs = pre ++ '[' :: (n ++ ']' :: '(' :: (l ++ ')' :: post)) ∧
      n ≠ [] ∧ ']' ∉ n ∧ l ≠ [] ∧ ')' ∉ l
  | [], n, l, h => by simp [reSearch] at h
  | c :: rest, n, l, h => by
    rw [reSearch] at h
    by_cases hc : c = '['
    · rw [if_pos hc] at h
      cases ht : tryMatchAt rest with
      | some r =>
        rw [ht] at h
        simp only [Option.some.injEq] at h
        obtain ⟨post, hrest, hn, hnm, hl, hlm⟩ :=
          tryMatchAt_sound rest n l (by rw [ht, h])
        exact ⟨[], post, by rw [hc, hrest]; rfl, hn, hnm, hl, hlm⟩
      | none =>
        rw [ht] at h
        obtain ⟨pre, post, hrest, props⟩ := reSearch_sound rest n l h
        exact ⟨c :: pre, post, by rw [List.cons_append, hrest], props⟩
    · rw [if_neg hc] at h
      obtain ⟨pre, post, hrest, props⟩ := reSearch_sound rest n l h
      exact ⟨c :: pre, post, by rw [List.cons_append, hrest], props⟩

lemma reSearch_complete_aux : ∀ (pre n l post : List Char),
    n ≠ [] → ']' ∉ n → l ≠ [] → ')' ∉ l →
    ∃ r, reSearch (pre ++ '[' :: (n ++ ']' :: '(' :: (l ++ ')' :: post))) = some r
  | [], n, l, post, hn, hnm, hl, hlm => by
    refine ⟨(n, l), ?_⟩
    rw [List.nil_append, reSearch, if_pos rfl,
      tryMatchAt_complete n l post hn hnm hl hlm]
  | c :: pre, n, l, post, hn, hnm, hl, hlm => by
    obtain ⟨r, hr⟩ := reSearch_complete_aux pre n l post hn hnm hl hlm
    rw [List.cons_append, reSearch]
    by_cases hc : c = '['
    · rw [if_pos hc]
      cases ht : tryMatchAt (pre ++ '[' :: (n ++ ']' :: '(' :: (l ++ ')' :: post))) with
      | some r2 => exact ⟨r2, rfl⟩
      | none => exact ⟨r, hr⟩
    · rw [if_neg hc]
      exact ⟨r, hr⟩

lemma reSearch_complete (cs : List Char) (h : HasLinkPattern cs) :
    ∃ r, reSearch cs = some r := by
  obtain ⟨pre, n, l, post, rfl, hn, hnm, hl, hlm⟩ := h
  exact reSearch_complete_aux pre n l post hn hnm hl hlm

lemma locate_eq_none (l : List FileDescriptor)
    (h : ∀ f ∈ l, pyLower f.src_uri ≠ annotatedLit) :
    locateAnnotatedFile l = none := by
  induction l with
  | nil => rfl
  | cons f fs ih =>
    rw [locateAnnotatedFile, List.find?_cons_of_neg, ← locateAnnotatedFile]
    · exact ih (fun g hg => h g (by simp [hg]))
    · simp only [beq_iff_eq]
      exact h f (by simp)

/-- C1: if no descriptor's lowercased source path equals
`"ecss/annotated.md"`, the build produces exactly the single fixed header
line, for every filesystem (so no read of any file can influence the
result). -/
theorem claim_C1_header_only (files : List FileDescriptor)
    (hnone : ∀ f ∈ files, pyLower f.src_uri ≠ annotatedLit)
    (fs : List Char → Option (List Char)) :
    build files fs = .ok ⟨summaryPath, headerLine, confirmMsg⟩ := by
  have hloc : locateAnnotatedFile (sortFiles files) = none :=
    locate_eq_none _ (fun f hf => hnone f ((mem_sortFiles f files).mp hf))
  simp only [build, hloc]
  rfl

theorem claim_C1_witness :
    build [⟨"docs/index.md".data, "/docs/index.md".data⟩] (fun _ => none)
      = .ok ⟨summaryPath, headerLine, confirmMsg⟩ :=
  claim_C1_header_only _ (by decide) _

/-- C2: a line whose stripped form does not start with `*` produces no
entry, and a line containing no `[name](link)` substring (name non-empty
excluding `]`, link non-empty excluding `)`) produces no entry. -/
theorem claim_C2_line_skip (line : List Char) :
    (startsWithStar (pyStrip line) = false → parseLine line = none) ∧
    (¬ HasLinkPattern line → parseLine line = none) := by
  constructor
  · intro h
    rw [parseLine, if_pos h]
  · intro h
    by_cases hs : startsWithStar (pyStrip line) = false
    · rw [parseLine, if_pos hs]
    · simp only [parseLine, if_neg hs]
      cases hr : reSearch line with
      | none => rfl
      | some r =>
        obtain ⟨n, l⟩ := r
        exfalso
        obtain ⟨pre, post, heq, hn, hnm, hl, hlm⟩ := reSearch_sound line n l hr
        exact h ⟨pre, n, l, post, heq, hn, hnm, hl, hlm⟩

theorem claim_C2_witness :
    parseLine "plain text".data = none ∧ parseLine "* no link here".data = none := by
  constructor
  · exact (claim_C2_line_skip "plain text".data).1 (by decide)
  · refine (claim_C2_line_skip "* no link here".data).2 ?_
    intro h
    obtain ⟨r, hr⟩ := reSearch_complete "* no link here".data h
    have hnone : reSearch "* no link here".data = none := by decide
    rw [hnone] at hr
    cases hr

/-- C3: on every matched line the produced display name is the captured
name with every `**` removed, then every space removed, then every `::`
replaced by `.`; in particular `"**Foo::Bar Baz**"` becomes
`"Foo.BarBaz"`. -/
theorem claim_C3_name_normalization :
    (∀ line e, parseLine line = some e →
      ∃ n l, reSearch line = some (n, l) ∧ e.displayName = normalizeName n) ∧
    normalizeName "**Foo::Bar Baz**".data = "Foo.BarBaz".data := by
  refine ⟨?_, by decide⟩
  intro line e h
  simp only [parseLine] at h
  split at h
  · cases h
  · cases hr : reSearch line with
    | none =>
      simp only [hr] at h
      exact Option.noConfusion h
    | some r =>
      obtain ⟨n, l⟩ := r
      simp only [hr, Option.some.injEq] at h
      exact ⟨n, l, rfl, by rw [← h]⟩

theorem claim_C3_witness :
    ∃ n l, reSearch "* [**Foo::Bar Baz**](foo.md)".data = some (n, l) ∧
      (NavEntry.mk 0 "Foo.BarBaz".data "foo.md".data).displayName = normalizeName n :=
  claim_C3_name_normalization.1 "* [**Foo::Bar Baz**](foo.md)".data
    ⟨0, "Foo.BarBaz".data, "foo.md".data⟩ (by decide)

/-- C4: on every matched line the indent level is the count of leading
space characters integer-divided by 4 (truncating); a line with exactly 8
leading spaces yields level 2, rendered with two 4-space units. -/
theorem claim_C4_indent_rule :
    (∀ line e, parseLine line = some e →
      e.indentLevel = leadingSpaceCount line / 4) ∧
    parseLine "        * [a](b.md)".data = some ⟨2, "a".data, "b.md".data⟩ ∧
    renderEntry ⟨2, "a".data, "b.md".data⟩
      = "        ".data ++ "* [a](b.md)".data := by
  refine ⟨?_, by decide, by decide⟩
  intro line e h
  simp only [parseLine] at h
  split at h
  · cases h
  · cases hr : reSearch line with
    | none =>
      simp only [hr] at h
      exact Option.noConfusion h
    | some r =>
      obtain ⟨n, l⟩ := r
      simp only [hr, Option.some.injEq] at h
      rw [← h]
      simp only [leadingSpaceCount, ← length_sub_dropWhile]

theorem claim_C4_witness :
    (NavEntry.mk 2 "a".data "b.md".data).indentLevel
      = leadingSpaceCount "        * [a](b.md)".data / 4 :=
  claim_C4_indent_rule.1 "        * [a](b.md)".data
    ⟨2, "a".data, "b.md".data⟩ (by decide)

/-- C5: the descriptor scan returns the first descriptor whose lowered
source path equals the fixed literal, unaffected by anything after it, and
absence when no descriptor matches. -/
theorem claim_C5_locate_first (xs ys : List FileDescriptor) (d : FileDescriptor) :
    ((∀ x ∈ xs, pyLower x.src_uri ≠ annotatedLit) →
      pyLower d.src_uri = annotatedLit →
      locateAnnotatedFile (xs ++ d :: ys) = some d) ∧
    ((∀ x ∈ xs, pyLower x.src_uri ≠ annotatedLit) →
      locateAnnotatedFile xs = none) := by
  constructor
  · intro hxs hd
    induction xs with
    | nil =>
      rw [List.nil_append, locateAnnotatedFile]
      apply List.find?_cons_of_pos
      simp only [beq_iff_eq]
      exact hd
    | cons x xs ih =>
      rw [List.cons_append, locateAnnotatedFile, List.find?_cons_of_neg,
        ← locateAnnotatedFile]
      · exact ih (fun g hg => hxs g (by simp [hg]))
      · simp only [beq_iff_eq]
        exact hxs x (by simp)
  · exact locate_eq_none xs

theorem claim_C5_witness :
    locateAnnotatedFile
      [⟨"docs/a.md".data, "/a".data⟩, ⟨"ECSS/Annotated.md".data, "/b".data⟩,
       ⟨"ecss/annotated.md".data, "/c".data⟩]
      = some ⟨"ECSS/Annotated.md".data, "/b".data⟩ :=
  (claim_C5_locate_first [⟨"docs/a.md".data, "/a".data⟩]
      [⟨"ecss/annotated.md".data, "/c".data⟩]
      ⟨"ECSS/Annotated.md".data, "/b".data⟩).1 (by decide) (by decide)

/-- C6: end to end, one matched file whose content is the two example
lines produces exactly the three expected output lines joined by
newlines. -/
theorem claim_C6_end_to_end :
    build [⟨"ecss/annotated.md".data, "/docs/annotated.md".data⟩]
      (fun p => if p = "/docs/annotated.md".data then
          some "* [**Root**](root.md)\n    * [Child::Sub](child.md)".data
        else none)
      = .ok ⟨summaryPath,
          ("* [API Reference](annotated.md)\n* [Root](root.md)"
            ++ "\n    * [Child.Sub](child.md)").data,
          confirmMsg⟩ := by decide

/-- C7: every successful run writes the fixed header first, then one line
per successfully parsed bullet entry, in source order, joined by
newlines. -/
theorem claim_C7_output_shape (files : List FileDescriptor)
    (fs : List Char → Option (List Char)) (out : BuildOutput)
    (h : build files fs = .ok out) :
    out.summary = joinNl (headerLine :: navEntriesSource files fs) := by
  simp only [build] at h
  cases hloc : locateAnnotatedFile (sortFiles files) with
  | none =>
    simp only [hloc, Except.ok.injEq] at h
    rw [← h]
    simp [navEntriesSource, hloc, joinNl]
  | some f =>
    simp only [hloc] at h
    cases hfs : fs f.abs_src_path with
    | none => simp [hfs] at h
    | some content =>
      simp only [hfs, Except.ok.injEq] at h
      rw [← h]
      simp only [navEntriesSource, hloc, hfs, Option.getD_some, renderedEntries]
      rw [foldl_parse_eq_filterMap]
      simp

theorem claim_C7_witness :
    (BuildOutput.mk summaryPath headerLine confirmMsg).summary
      = joinNl (headerLine :: navEntriesSource [] (fun _ => none)) :=
  claim_C7_output_shape [] (fun _ => none) _ (by decide)

/-- C8: if the located annotated file cannot be read, the run fails with
an uncaught error: no artifact and no confirmation message are
produced. -/
theorem claim_C8_read_failure (files : List FileDescriptor)
    (fs : List Char → Option (List Char)) (f : FileDescriptor)
    (hloc : locateAnnotatedFile (sortFiles files) = some f)
    (hfs : fs f.abs_src_path = none) :
    build files fs = .error () := by
  simp [build, hloc, hfs]

theorem claim_C8_witness :
    build [⟨"ecss/annotated.md".data, "/docs/annotated.md".data⟩] (fun _ => none)
      = .error () :=
  claim_C8_read_failure _ _ ⟨"ecss/annotated.md".data, "/docs/annotated.md".data⟩
    (by decide) rfl

/-- C9: the build is deterministic: two runs on identical inputs produce
identical results. -/
theorem claim_C9_deterministic (files : List FileDescriptor)
    (fs : List Char → Option (List Char)) (out1 out2 : Except Unit BuildOutput)
    (h1 : build files fs = out1) (h2 : build files fs = out2) :
    out1 = out2 := by
  rw [← h1, ← h2]

theorem claim_C9_witness :
    (Except.ok ⟨summaryPath, headerLine, confirmMsg⟩ : Except Unit BuildOutput)
      = Except.ok ⟨summaryPath, headerLine, confirmMsg⟩ :=
  claim_C9_deterministic [] (fun _ => none) _ _ (by decide) (by decide)

/-- C10: the extraction pattern only ever captures a non-empty name and a
non-empty link; bullet lines whose only bracketed group or parenthesized
group is empty produce no entry. -/
theorem claim_C10_nonempty_groups :
    (∀ cs n l, reSearch cs = some (n, l) → n ≠ [] ∧ l ≠ []) ∧
    parseLine "* [](link)".data = none ∧ parseLine "* [name]()".data = none := by
  refine ⟨?_, by decide, by decide⟩
  intro cs n l h
  obtain ⟨pre, post, _, hn, _, hl, _⟩ := reSearch_sound cs n l h
  exact ⟨hn, hl⟩

theorem claim_C10_witness :
    "a".data ≠ ([] : List Char) ∧ "b".data ≠ ([] : List Char) :=
  claim_C10_nonempty_groups.1 "* [a](b)".data "a".data "b".data (by decide)
